import Mathlib

/-!
Verification of the Perceiver model implementation
(`src/transformers/models/perceiver/modeling_perceiver.py`).

The Python code is shallowly embedded: tensors become (nested) lists of
rationals, `nn.Linear` becomes an explicit weight matrix and bias vector,
and operations that can fail at run time (shape mismatches, `ValueError`s,
invalid keyword arguments) return `Option`/`Except` values.  Irrational
primitives of the source (`math.sqrt`, `torch.sin`, `torch.cos`, the
exponential inside softmax) are passed in as explicit function parameters
of type `ℚ → ℚ`, so every definition stays computable; the theorems
quantify over those parameters whenever the property does not depend on
them.  `nn.Dropout` is modelled as the identity (evaluation mode), and the
batch dimension is handled by mapping where the source ops act batchwise
independently.
-/

/-- A 1-D tensor (one row of features). -/
abbrev Vec := List ℚ

/-- A 2-D tensor, stored as a list of rows. -/
abbrev Mat := List Vec

/-- A 3-D tensor `[batch, seq, channels]`, stored as a list of matrices. -/
abbrev T3 := List Mat

/-- Last dimension (channel count) of a 3-D tensor, read off the first row
of the first batch element (tensors of interest are rectangular). -/
def lastDimT3 (t : T3) : ℕ := ((t.headD []).headD []).length

/-- Sequence length (`shape[1]`) of a 3-D tensor, read off the first batch
element. -/
def seqLenT3 (t : T3) : ℕ := (t.headD []).length

/-- Dot product of two rows. -/
def dot (a b : Vec) : ℚ := (List.zipWith (· * ·) a b).sum

/-- `torch.nn.Linear`: weight of shape `[outF, inF]` (one row per output
feature) and a bias vector.  Applying it to a vector of the wrong length
is a run-time shape error, modelled as `none`. -/
structure Linear where
  inF : ℕ
  outF : ℕ
  weight : Mat
  bias : Vec

/-- Apply a linear layer to a single feature vector. -/
def Linear.apply (l : Linear) (x : Vec) : Option Vec :=
  if x.length = l.inF then
    some ((l.weight.zip l.bias).map fun rb => dot rb.1 x + rb.2)
  else
    none

/-- Apply a linear layer row-wise to a matrix (a `[seq, channels]` slice). -/
def Linear.applyMat (l : Linear) : Mat → Option Mat
  | [] => some []
  | r :: rest => (l.apply r).bind fun r' => (l.applyMat rest).map fun rest' => r' :: rest'

/-- `torch.linspace start end steps` (evenly spaced, endpoints included;
`steps = 1` yields `[start]`, matching torch). -/
def linspace (a b : ℚ) (steps : ℕ) : Vec :=
  (List.range steps).map fun i : ℕ => a + (b - a) * (i : ℚ) / ((steps : ℚ) - 1)

/-! ### C5: divisibility checks of `PerceiverSelfAttention.__init__` and
`PerceiverEncoder.__init__` -/

/-- Resolved channel configuration produced by
`PerceiverSelfAttention.__init__` (source lines 196-214). -/
structure SelfAttentionCfg where
  num_heads : ℕ
  qk_channels : ℕ
  v_channels : ℕ
  qk_channels_per_head : ℕ
  v_channels_per_head : ℕ
  q_dim : ℕ
  kv_dim : ℕ
  deriving Repr, DecidableEq

/-- `PerceiverSelfAttention.__init__`: default `qk_channels` to `q_dim`,
default `v_channels` to `qk_channels`, then fail with a `ValueError`
unless both are divisible by `num_heads`.  (`q_dim`/`kv_dim` are taken as
given naturals: every caller in the source passes them.) -/
def selfAttentionInit (qk_channels v_channels : Option ℕ) (num_heads : ℕ)
    (q_dim kv_dim : ℕ) : Except String SelfAttentionCfg :=
  let qk := qk_channels.getD q_dim
  let v := v_channels.getD qk
  if qk % num_heads ≠ 0 then
    .error "qk_channels must be divisible by num_heads"
  else if v % num_heads ≠ 0 then
    .error "v_channels must be divisible by num_heads"
  else
    .ok { num_heads := num_heads, qk_channels := qk, v_channels := v,
          qk_channels_per_head := qk / num_heads,
          v_channels_per_head := v / num_heads,
          q_dim := q_dim, kv_dim := kv_dim }

/-- The two shape checks at the top of `PerceiverEncoder.__init__`
(source lines 545-555). -/
def encoderInitCheck (d_latents num_self_attention_heads num_cross_attention_heads : ℕ) :
    Except String Unit :=
  if d_latents % num_self_attention_heads ≠ 0 then
    .error "num_z_channels must be divisible by num_self_attend_heads"
  else if d_latents % num_cross_attention_heads ≠ 0 then
    .error "num_z_channels must be divisible by num_cross_attend_heads"
  else
    .ok ()

/-! ### C3: the encoder forward loop (source lines 609-645) -/

/-- One pass over the single block of self-attention layers
(`self.self_attends`).  A layer is represented by its forward function on
the latent array; the encoder owns one list of layers and reuses it. -/
def applyBlock (self_attends : List (Mat → Mat)) (h : Mat) : Mat :=
  self_attends.foldl (fun s l => l s) h

/-- `PerceiverEncoder.forward`: one cross-attention layer from the latents
into the inputs, then `num_blocks` passes of the *same* list
`self_attends` of self-attention layers (the source loops
`for _ in range(self.config.num_blocks)` over `self.self_attends`). -/
def encoderForward (num_blocks : ℕ) (cross_attention : Mat → Mat → Mat)
    (self_attends : List (Mat → Mat)) (hidden_states inputs : Mat) : Mat :=
  let h := cross_attention hidden_states inputs
  (List.range num_blocks).foldl
    (fun s _ => self_attends.foldl (fun t l => l t) s) h

lemma foldl_range_const {α : Type} (f : α → α) (n : ℕ) (x : α) :
    (List.range n).foldl (fun s _ => f s) x = f^[n] x := by
  induction n generalizing x with
  | zero => simp
  | succ k ih =>
      rw [List.range_succ, List.foldl_append]
      simp only [List.foldl_cons, List.foldl_nil]
      rw [ih, ← Function.iterate_succ_apply' f k x]

/-- C3: for every block count the encoder forward pass equals the
cross-attention output followed by the `num_blocks`-fold iteration of one
and the same self-attention layer stack; in particular for
`num_blocks = 2` the identical stack is applied twice in sequence. -/
theorem encoder_weight_sharing (num_blocks : ℕ)
    (cross_attention : Mat → Mat → Mat) (self_attends : List (Mat → Mat))
    (hidden_states inputs : Mat) :
    encoderForward num_blocks cross_attention self_attends hidden_states inputs
      = (applyBlock self_attends)^[num_blocks] (cross_attention hidden_states inputs)
    ∧ encoderForward 2 cross_attention self_attends hidden_states inputs
      = applyBlock self_attends
          (applyBlock self_attends (cross_attention hidden_states inputs)) := by
  exact ⟨foldl_range_const (applyBlock self_attends) num_blocks _,
    foldl_range_const (applyBlock self_attends) 2 _⟩

/-- C5: construction of the attention module fails exactly when the
resolved `qk_channels` or the resolved `v_channels` is not divisible by
the head count, and the encoder's construction-time check fails whenever
`d_latents` is not divisible by the self-attention head count or by the
cross-attention head count.  (`0 < heads` mirrors Python, where `% 0`
would raise a different error.) -/
theorem attention_divisibility_checks
    (qk_channels v_channels : Option ℕ) (num_heads q_dim kv_dim : ℕ)
    (d_latents num_self_heads num_cross_heads : ℕ)
    (_hh : 0 < num_heads) (_hs : 0 < num_self_heads) (_hc : 0 < num_cross_heads) :
    ((∃ e, selfAttentionInit qk_channels v_channels num_heads q_dim kv_dim = .error e) ↔
      (¬ num_heads ∣ qk_channels.getD q_dim ∨
        ¬ num_heads ∣ v_channels.getD (qk_channels.getD q_dim)))
    ∧ ((¬ num_self_heads ∣ d_latents ∨ ¬ num_cross_heads ∣ d_latents) →
        ∃ e, encoderInitCheck d_latents num_self_heads num_cross_heads = .error e) := by
  constructor
  · simp only [selfAttentionInit, Nat.dvd_iff_mod_eq_zero]
    constructor
    · intro ⟨e, he⟩
      by_cases h1 : (qk_channels.getD q_dim) % num_heads ≠ 0
      · exact Or.inl h1
      · by_cases h2 : (v_channels.getD (qk_channels.getD q_dim)) % num_heads ≠ 0
        · exact Or.inr h2
        · simp only [h1, h2, if_false, reduceCtorEq] at he
    · intro h
      rcases h with h | h
      · exact ⟨"qk_channels must be divisible by num_heads", by simp [h]⟩
      · by_cases h1 : (qk_channels.getD q_dim) % num_heads ≠ 0
        · exact ⟨"qk_channels must be divisible by num_heads", by simp [h1]⟩
        · exact ⟨"v_channels must be divisible by num_heads", by simp [h1, h]⟩
  · intro h
    simp only [Nat.dvd_iff_mod_eq_zero] at h
    unfold encoderInitCheck
    rcases h with h | h
    · exact ⟨"num_z_channels must be divisible by num_self_attend_heads", by simp [h]⟩
    · by_cases h1 : d_latents % num_self_heads ≠ 0
      · exact ⟨"num_z_channels must be divisible by num_self_attend_heads", by simp [h1]⟩
      · exact ⟨"num_z_channels must be divisible by num_cross_attend_heads", by simp [h1, h]⟩

/-- Witness for `attention_divisibility_checks` at a concrete
configuration: `qk_channels = 7` with 2 heads is rejected, and
`d_latents = 9` is rejected for 2 self-attention heads. -/
theorem attention_divisibility_checks_witness :
    ((∃ e, selfAttentionInit (some 7) none 2 16 16 = .error e) ↔
      (¬ 2 ∣ (some 7 : Option ℕ).getD 16 ∨
        ¬ 2 ∣ (none : Option ℕ).getD ((some 7 : Option ℕ).getD 16)))
    ∧ ((¬ 2 ∣ 9 ∨ ¬ 3 ∣ 9) → ∃ e, encoderInitCheck 9 2 3 = .error e) :=
  attention_divisibility_checks (some 7) none 2 16 16 9 2 3
    (by decide) (by decide) (by decide)

/-! ### C6: the feed-forward block (`PerceiverMLP`, source lines 447-463,
and `PerceiverLayer`, lines 495-535) -/

/-- `PerceiverMLP` as constructed by `PerceiverMLP.__init__`:
`dense1 = nn.Linear(input_size, widening_factor * input_size)` and — as
written in the source at line 457 — `dense2 = nn.Linear(input_size,
input_size)`.  The activation `ACT2FN[config.hidden_act]` is an arbitrary
elementwise function taken as a parameter. -/
structure PerceiverMLP where
  dense1 : Linear
  act : ℚ → ℚ
  dense2 : Linear

/-- Build the MLP from `input_size`, `widening_factor` and the (learned)
weights, with the layer dimensions exactly as declared in the source. -/
def mkPerceiverMLP (input_size widening_factor : ℕ) (act : ℚ → ℚ)
    (w1 : Mat) (b1 : Vec) (w2 : Mat) (b2 : Vec) : PerceiverMLP :=
  { dense1 := { inF := input_size, outF := widening_factor * input_size,
                weight := w1, bias := b1 },
    act := act,
    dense2 := { inF := input_size, outF := input_size, weight := w2, bias := b2 } }

/-- `PerceiverMLP.forward` on one feature vector: `dense1`, elementwise
activation, `dense2`. -/
def PerceiverMLP.forward (m : PerceiverMLP) (x : Vec) : Option Vec :=
  (m.dense1.apply x).bind fun h => m.dense2.apply (h.map m.act)

/-- The feed-forward chunk of `PerceiverLayer` (source lines 528-535):
layer normalization is applied first, then the MLP; `PerceiverLayer.forward`
adds the result to the attention output as a residual.  The layer norm is
taken as a parameter function here because C6 is settled before it runs:
the MLP itself fails on any widened configuration. -/
def feedForwardChunk (layernorm : Vec → Vec) (mlp : PerceiverMLP) (attention_output : Vec) :
    Option Vec :=
  mlp.forward (layernorm attention_output)

/-- C6 (code bug): with `widening_factor = 2` and `input_size = 1`, the
first dense layer produces `2 * 1 = 2` channels, but `dense2` was declared
as `nn.Linear(input_size, input_size)` (source line 457) and therefore
rejects its input: the feed-forward block cannot map the widened hidden
vector back to `input_size` channels, contradicting the specified
normalize → expand to `m*W` → nonlinearity → project back to `W`
pipeline.  Concretely the forward pass fails (a matmul shape error),
while `dense1` alone does expand to `m*W` channels. -/
theorem mlp_dense2_shape_bug :
    (PerceiverMLP.forward (mkPerceiverMLP 1 2 id [[1], [1]] [0, 0] [[1]] [0]) [0]
      = none)
    ∧ ((mkPerceiverMLP 1 2 id [[1], [1]] [0, 0] [[1]] [0]).dense1.apply [0]
      = some [0, 0])
    ∧ (mkPerceiverMLP 1 2 id [[1], [1]] [0, 0] [[1]] [0]).dense2.inF = 1 := by
  refine ⟨?_, ?_, rfl⟩ <;>
    simp [PerceiverMLP.forward, mkPerceiverMLP, Linear.apply, dot]

/-! ### C9: the `d_model` shape check in `PerceiverModel.forward`
(source lines 786-810) -/

/-- One preprocessor invocation as performed at the top of
`PerceiverModel.forward`: if a preprocessor is configured it returns
`(inputs, modality_sizes, inputs_without_pos)`; otherwise the raw input
passes through with both extras `None`. -/
def preprocessOut (input_preprocessor : Option (T3 → T3 × Option (List (String × ℕ)) × Option T3))
    (inputs : T3) : T3 × Option (List (String × ℕ)) × Option T3 :=
  match input_preprocessor with
  | some p => p inputs
  | none => (inputs, none, none)

/-- The `ValueError` message raised by the `d_model` check. -/
def dModelMismatchMsg : String :=
  "Last dimension of the inputs doesn't correspond to config.d_model"

/-- `PerceiverModel.forward`, source lines 786-831: preprocess, check the
trailing dimension against `config.d_model` (failing with a `ValueError`
before anything else happens), then build the attention mask, expand the
latent embeddings to the batch, and run the encoder.  The mask builder,
the latent-embedding expansion and the encoder are parameters, so the
theorems can show the error branch never consults them.  (The decoding
half of the source function, lines 838 onwards, is outside this claim.) -/
def perceiverModelForward (d_model : ℕ)
    (input_preprocessor : Option (T3 → T3 × Option (List (String × ℕ)) × Option T3))
    (invert_attention_mask : ℕ → ℕ → Mat)
    (embeddings : ℕ → Mat)
    (encoder : Mat → T3 → Mat → Mat)
    (raw_inputs : T3) : Except String Mat :=
  let inputs := (preprocessOut input_preprocessor raw_inputs).1
  if lastDimT3 inputs ≠ d_model then
    .error dModelMismatchMsg
  else
    let batch_size := inputs.length
    let seq_length := seqLenT3 inputs
    let extended_attention_mask := invert_attention_mask batch_size seq_length
    let embedding_output := embeddings batch_size
    .ok (encoder embedding_output inputs extended_attention_mask)

/-- C9: if the preprocessed input's trailing dimension differs from
`d_model`, the forward call fails with the shape-mismatch error — and the
result is the same error for *any* mask builder, embedding expansion and
encoder, i.e. the failure happens before any of them runs; if the
trailing dimension equals `d_model`, no such error is raised. -/
theorem model_forward_d_model_check (d_model : ℕ)
    (pre : Option (T3 → T3 × Option (List (String × ℕ)) × Option T3))
    (mb mb' : ℕ → ℕ → Mat) (emb emb' : ℕ → Mat)
    (enc enc' : Mat → T3 → Mat → Mat) (raw_inputs : T3) :
    (lastDimT3 (preprocessOut pre raw_inputs).1 ≠ d_model →
      perceiverModelForward d_model pre mb emb enc raw_inputs = .error dModelMismatchMsg
      ∧ perceiverModelForward d_model pre mb' emb' enc' raw_inputs
        = .error dModelMismatchMsg)
    ∧ (lastDimT3 (preprocessOut pre raw_inputs).1 = d_model →
      ∃ v, perceiverModelForward d_model pre mb emb enc raw_inputs = .ok v) := by
  refine ⟨fun h => ⟨?_, ?_⟩, fun h => ?_⟩ <;>
    simp [perceiverModelForward, h]

/-- Witness for `model_forward_d_model_check`: an input of trailing
dimension 2 is rejected when `d_model = 3` (whatever the downstream
components) and accepted when `d_model = 2`. -/
theorem model_forward_d_model_check_witness :
    (perceiverModelForward 3 none (fun _ _ => []) (fun _ => []) (fun _ _ _ => [])
        [[[1, 2]]] = .error dModelMismatchMsg)
    ∧ ∃ v, perceiverModelForward 2 none (fun _ _ => []) (fun _ => []) (fun _ _ _ => [])
        [[[1, 2]]] = .ok v :=
  ⟨((model_forward_d_model_check 3 none (fun _ _ => []) (fun _ _ => [])
      (fun _ => []) (fun _ => []) (fun _ _ _ => []) (fun _ _ _ => [])
      [[[1, 2]]]).1 (by decide)).1,
    (model_forward_d_model_check 2 none (fun _ _ => []) (fun _ _ => [])
      (fun _ => []) (fun _ => []) (fun _ _ _ => []) (fun _ _ _ => [])
      [[[1, 2]]]).2 (by decide)⟩

/-! ### Fourier position encoding (`generate_fourier_features`, source
lines 2040-2085, and `PerceiverFourierPositionEncoding`, lines 2180-2228) -/

/-- `generate_fourier_features` returns a `[batch, n, channels]` tensor
when `concat_pos` is set and an `[n, channels]` tensor otherwise (the
source only `expand`s the sinusoidal features over the batch inside the
`concat_pos` branch), so its result is one of two ranks. -/
inductive FourierOut where
  | batched (t : T3)
  | unbatched (m : Mat)
  deriving Repr, DecidableEq

/-- Size of the last dimension of either result rank. -/
def FourierOut.lastDim : FourierOut → ℕ
  | .batched t => lastDimT3 t
  | .unbatched m => (m.headD []).length

/-- `freq_bands`: per axis, `num_bands` frequencies linearly spaced from
1 to `res / 2` (source lines 2062-2066). -/
def fourierFreqBands (num_bands : ℕ) (max_resolution : List ℚ) : Mat :=
  max_resolution.map fun res => linspace 1 (res / 2) num_bands

/-- One position's raw features `pos[i, j] * freq_bands[j, k]`, flattened
row-major over `(j, k)` — the `per_pos_features` tensor of source lines
2070-2071 restricted to one point. -/
def fourierRawRow (freq_bands : Mat) (row : Vec) : Vec :=
  (row.zip freq_bands).flatMap fun xf => xf.2.map fun f => xf.1 * f

/-- `generate_fourier_features` (source lines 2040-2085).  `s`/`c` stand
for `x ↦ sin(π x)` and `x ↦ cos(π x)`.  Note that the sinusoidal features
are computed from `pos[0, :, :]` — the first batch element only — and
broadcast over the batch; only the optional raw-position prefix uses the
whole `pos` tensor. -/
def generate_fourier_features (s c : ℚ → ℚ) (pos : T3) (num_bands : ℕ)
    (max_resolution : List ℚ) (concat_pos sine_only : Bool) : FourierOut :=
  let freq_bands := fourierFreqBands num_bands max_resolution
  let per_pos_features₀ := (pos.headD []).map (fourierRawRow freq_bands)
  let per_pos_features :=
    if sine_only then per_pos_features₀.map fun r => r.map s
    else per_pos_features₀.map fun r => r.map s ++ r.map c
  if concat_pos then
    .batched (pos.map fun m => m.zipWith (· ++ ·) per_pos_features)
  else
    .unbatched per_pos_features

/-- All coordinate tuples of the dense grid `linspace(-1, 1, nᵢ)` per
axis, in row-major order (`torch.meshgrid` + `stack` + row-major
reshape). -/
def cartesianProduct : List Vec → Mat
  | [] => [[]]
  | xs :: rest => xs.flatMap fun x => (cartesianProduct rest).map fun t => x :: t

/-- `build_linear_positions` (source lines 2088-2106), already flattened
to `[prod(index_dims), d]` as `_check_or_build_spatial_positions` does. -/
def build_linear_positions (index_dims : List ℕ) : Mat :=
  cartesianProduct (index_dims.map fun n => linspace (-1) 1 n)

/-- `_check_or_build_spatial_positions` (source lines 2153-2177): build
the dense grid when no positions are supplied, otherwise assert that the
trailing dimension equals the number of index dimensions (an
`AssertionError`, modelled as `none`). -/
def checkOrBuildSpatialPositions (pos : Option T3) (index_dims : List ℕ)
    (batch_size : ℕ) : Option T3 :=
  match pos with
  | none => some (List.replicate batch_size (build_linear_positions index_dims))
  | some p =>
      if p.all (fun m => m.all fun r => r.length = index_dims.length) then some p
      else none

/-- Configuration of `PerceiverFourierPositionEncoding`. -/
structure PerceiverFourierPositionEncoding where
  num_bands : ℕ
  max_resolution : List ℚ
  concat_pos : Bool
  sine_only : Bool

/-- `PerceiverFourierPositionEncoding.output_size` (source lines
2194-2217): `num_bands * num_dims`, doubled unless `sine_only`, plus
`pos_dim` (defaulting to `num_dims`) when `concat_pos`. -/
def PerceiverFourierPositionEncoding.output_size
    (e : PerceiverFourierPositionEncoding) (pos_dim : Option ℕ) : ℕ :=
  let num_dims := e.max_resolution.length
  let encoding_size := e.num_bands * num_dims
  let encoding_size := if e.sine_only then encoding_size else encoding_size * 2
  if e.concat_pos then encoding_size + pos_dim.getD num_dims else encoding_size

/-- `PerceiverFourierPositionEncoding.forward` (source lines 2219-2228). -/
def PerceiverFourierPositionEncoding.forward
    (e : PerceiverFourierPositionEncoding) (s c : ℚ → ℚ) (index_dims : List ℕ)
    (batch_size : ℕ) (pos : Option T3) : Option FourierOut :=
  (checkOrBuildSpatialPositions pos index_dims batch_size).map fun p =>
    generate_fourier_features s c p e.num_bands e.max_resolution e.concat_pos e.sine_only

lemma linspace_length (a b : ℚ) (steps : ℕ) : (linspace a b steps).length = steps := by
  unfold linspace
  rw [List.length_map, List.length_range]

lemma fourierRawRow_length (K : ℕ) (mr : List ℚ) (row : Vec)
    (h : row.length = mr.length) :
    (fourierRawRow (fourierFreqBands K mr) row).length = mr.length * K := by
  unfold fourierRawRow fourierFreqBands
  induction mr generalizing row with
  | nil =>
      have hrow : row = [] := by simpa using h
      subst hrow
      simp
  | cons a t ih =>
      match row, h with
      | x :: r, h =>
          simp only [List.map_cons, List.zip_cons_cons, List.flatMap_cons,
            List.length_append, List.length_map, linspace_length]
          rw [ih r (by simpa using h), List.length_cons]
          ring

/-- C1: `output_size()` equals
`num_bands * d * (1 if sine_only else 2) + (d if concat_pos else 0)` with
`d` the number of index dimensions, and the encoding tensor produced by
the forward pass for any `[B, n, d]` positions tensor has last dimension
equal to that same value. -/
theorem fourier_output_size_formula
    (e : PerceiverFourierPositionEncoding) (s c : ℚ → ℚ)
    (index_dims : List ℕ) (B n : ℕ) (pos : T3)
    (hid : index_dims.length = e.max_resolution.length)
    (hpos : pos.length = B) (hB : 0 < B) (hn : 0 < n)
    (hrows : ∀ m ∈ pos, m.length = n ∧ ∀ r ∈ m, r.length = e.max_resolution.length) :
    e.output_size none
        = e.num_bands * e.max_resolution.length * (if e.sine_only then 1 else 2)
          + (if e.concat_pos then e.max_resolution.length else 0)
    ∧ ∃ out, e.forward s c index_dims B (some pos) = some out
        ∧ out.lastDim = e.output_size none := by
  constructor
  · cases hso : e.sine_only <;> cases hcp : e.concat_pos <;>
      simp [PerceiverFourierPositionEncoding.output_size, hso, hcp]
  · have hall : (List.all pos fun m => List.all m fun r =>
        decide (r.length = index_dims.length)) = true := by
      rw [List.all_eq_true]
      intro m hm
      rw [List.all_eq_true]
      intro r hr
      simpa using ((hrows m hm).2 r hr).trans hid.symm
    have hcheck : checkOrBuildSpatialPositions (some pos) index_dims B = some pos := by
      simp [checkOrBuildSpatialPositions, hall]
    refine ⟨generate_fourier_features s c pos e.num_bands e.max_resolution
        e.concat_pos e.sine_only,
      by rw [PerceiverFourierPositionEncoding.forward, hcheck, Option.map_some'], ?_⟩
    obtain ⟨m₀, rest, rfl⟩ : ∃ m₀ rest, pos = m₀ :: rest := by
      cases pos with
      | nil => rw [List.length_nil] at hpos; omega
      | cons a l => exact ⟨a, l, rfl⟩
    obtain ⟨r₀, m₀', rfl⟩ : ∃ r₀ t, m₀ = r₀ :: t := by
      have h1 := (hrows _ (List.mem_cons_self _ _)).1
      cases m₀ with
      | nil => rw [List.length_nil] at h1; omega
      | cons a l => exact ⟨a, l, rfl⟩
    have hr₀ : r₀.length = e.max_resolution.length :=
      (hrows _ (List.mem_cons_self _ _)).2 _ (List.mem_cons_self _ _)
    have hraw : (fourierRawRow (fourierFreqBands e.num_bands e.max_resolution) r₀).length
        = e.max_resolution.length * e.num_bands := fourierRawRow_length _ _ _ hr₀
    unfold generate_fourier_features
    cases hso : e.sine_only <;> cases hcp : e.concat_pos <;>
      simp [FourierOut.lastDim, lastDimT3, PerceiverFourierPositionEncoding.output_size,
        hso, hcp, hraw, hr₀] <;> ring

/-- Witness for `fourier_output_size_formula`: one band over a
one-dimensional resolution `(2,)` with `concat_pos` and both phases, on a
`[1, 1, 1]` positions tensor; the computed width is `1·1·2 + 1 = 3`. -/
theorem fourier_output_size_formula_witness :
    (⟨1, [2], true, false⟩ : PerceiverFourierPositionEncoding).output_size none
        = 1 * ([(2 : ℚ)] : List ℚ).length
            * (if (⟨1, [2], true, false⟩ : PerceiverFourierPositionEncoding).sine_only
                then 1 else 2)
          + (if (⟨1, [2], true, false⟩ : PerceiverFourierPositionEncoding).concat_pos
              then ([(2 : ℚ)] : List ℚ).length else 0)
    ∧ ∃ out, (⟨1, [2], true, false⟩ : PerceiverFourierPositionEncoding).forward
          id id [2] 1 (some [[[0]]]) = some out
        ∧ out.lastDim
            = (⟨1, [2], true, false⟩ : PerceiverFourierPositionEncoding).output_size none :=
  fourier_output_size_formula ⟨1, [2], true, false⟩ id id [2] 1 1 [[[0]]]
    (by decide) (by decide) (by decide) (by decide)
    (by intro m hm; simp at hm; subst hm; exact ⟨rfl, by intro r hr; simp at hr; subst hr; rfl⟩)

/-! ### C10: the sinusoidal features come from the first batch element -/

lemma zipWith_append_drop (d : ℕ) (m ppf : Mat) (hm : ∀ r ∈ m, r.length = d) :
    (List.zipWith (· ++ ·) m ppf).map (fun r => r.drop d) = ppf.take m.length := by
  induction m generalizing ppf with
  | nil => simp
  | cons r m' ih =>
      cases ppf with
      | nil => simp
      | cons p ppf' =>
          simp only [List.zipWith_cons_cons, List.map_cons, List.length_cons,
            List.take_succ_cons]
          rw [ih _ fun r hr => hm r (List.mem_cons_of_mem _ hr)]
          rw [← hm r (List.mem_cons_self _ _), List.drop_left]

/-- The sinusoidal portion of the output of `generate_fourier_features`:
for the batched (`concat_pos`) rank, everything after the first `d` raw
position channels of every row; for the unbatched rank, the whole
matrix. -/
def FourierOut.sinParts (d : ℕ) : FourierOut → List Mat
  | .batched t => t.map fun m => m.map fun r => r.drop d
  | .unbatched m => [m]

/-- C10: the sinusoidal features are computed from `pos[0]` only (source
line 2070 reads `pos[0, :, :]`) and broadcast over the batch: two
position tensors agreeing on their first batch element produce identical
sinusoidal parts, and within one output all batch elements carry the same
sinusoidal part. -/
theorem fourier_sinusoids_from_first_batch_element
    (s c : ℚ → ℚ) (K : ℕ) (mr : List ℚ) (concat sine : Bool) (pos pos' : T3) (n : ℕ)
    (hhead : pos.headD [] = pos'.headD [])
    (hlen : pos.length = pos'.length)
    (hn : ∀ m ∈ pos, m.length = n) (hn' : ∀ m ∈ pos', m.length = n)
    (hd : ∀ m ∈ pos, ∀ r ∈ m, r.length = mr.length)
    (hd' : ∀ m ∈ pos', ∀ r ∈ m, r.length = mr.length) :
    (generate_fourier_features s c pos K mr concat sine).sinParts mr.length
      = (generate_fourier_features s c pos' K mr concat sine).sinParts mr.length
    ∧ ∀ M ∈ (generate_fourier_features s c pos K mr concat sine).sinParts mr.length,
      ∀ M' ∈ (generate_fourier_features s c pos K mr concat sine).sinParts mr.length,
        M = M' := by
  unfold generate_fourier_features
  cases hcp : concat with
  | false =>
      simp only [if_false, Bool.false_eq_true, FourierOut.sinParts]
      rw [hhead]
      refine ⟨rfl, ?_⟩
      intro M hM M' hM'
      simp only [List.mem_singleton] at hM hM'
      rw [hM, hM']
  | true =>
      simp only [if_true, FourierOut.sinParts]
      have key : ∀ (q : T3), (∀ m ∈ q, m.length = n) →
          (∀ m ∈ q, ∀ r ∈ m, r.length = mr.length) →
          ∀ (ppf : Mat),
          List.map (fun m => List.map (fun r => List.drop mr.length r) m)
              (List.map (fun m => List.zipWith (fun x1 x2 => x1 ++ x2) m ppf) q)
            = List.replicate q.length (ppf.take n) := by
        intro q hqn hqd ppf
        rw [List.map_map, ← List.map_const' q (ppf.take n), List.map_eq_map_iff]
        intro m hm
        simp only [Function.comp_apply]
        rw [zipWith_append_drop _ _ _ (hqd m hm), hqn m hm]
      rw [key pos hn hd, key pos' hn' hd', hhead, hlen]
      refine ⟨rfl, ?_⟩
      intro M hM M' hM'
      rw [List.eq_of_mem_replicate hM, List.eq_of_mem_replicate hM']

/-- Witness for `fourier_sinusoids_from_first_batch_element`: two
two-element batches agreeing on batch element 0 but differing at batch
element 1. -/
theorem fourier_sinusoids_from_first_batch_element_witness :
    (generate_fourier_features id id [[[0]], [[1]]] 1 [2] true false).sinParts
        ([(2 : ℚ)] : List ℚ).length
      = (generate_fourier_features id id [[[0]], [[5]]] 1 [2] true false).sinParts
        ([(2 : ℚ)] : List ℚ).length
    ∧ ∀ M ∈ (generate_fourier_features id id [[[0]], [[1]]] 1 [2] true false).sinParts
        ([(2 : ℚ)] : List ℚ).length,
      ∀ M' ∈ (generate_fourier_features id id [[[0]], [[1]]] 1 [2] true false).sinParts
        ([(2 : ℚ)] : List ℚ).length,
        M = M' :=
  fourier_sinusoids_from_first_batch_element id id 1 [2] true false
    [[[0]], [[1]]] [[[0]], [[5]]] 1
    (by decide) (by decide)
    (by decide) (by decide) (by decide) (by decide)

/-! ### C2: multimodal restructuring (`restructure`, source lines
1837-1856, and `PerceiverMultimodalPreprocessor.forward`, lines
2714-2765) -/

/-- Iterate an association list in sorted key order, as Python's
`sorted(d.keys())` loops do. -/
def sortByKey {α : Type} (l : List (String × α)) : List (String × α) :=
  l.insertionSort fun a b => a.1 ≤ b.1

/-- The slice `inputs[:, index : index + size]` of a `[B, N, C]` tensor. -/
def sliceRows (index size : ℕ) (inputs : T3) : T3 :=
  inputs.map fun m => (m.drop index).take size

/-- The slicing loop of `restructure`, carrying the running start index. -/
def restructureGo (sizes : List (String × ℕ)) (index : ℕ) (inputs : T3) :
    List (String × T3) :=
  match sizes with
  | [] => []
  | (modality, size) :: rest =>
      (modality, sliceRows index size inputs) :: restructureGo rest (index + size) inputs

/-- `restructure`: partition a `[B, N, C]` tensor into per-modality
tensors over consecutive row spans, in alphabetical modality order. -/
def restructure (modality_sizes : List (String × ℕ)) (inputs : T3) :
    List (String × T3) :=
  restructureGo (sortByKey modality_sizes) 0 inputs

/-- `torch.cat(ts, dim=1)` on `[B, *, C]` tensors; the batch size is read
off the first tensor (`torch.cat` of an empty list raises). -/
def catDim1 (ts : List T3) : T3 :=
  (List.range (ts.headD []).length).map fun b => (ts.map fun t => t.getD b []).flatten

lemma getD_zero_headD {α : Type} (l : List α) (d : α) : l.getD 0 d = l.headD d := by
  cases l <;> rfl

lemma map_getD_range {α : Type} (l : List α) (d : α) :
    (List.range l.length).map (fun b => l.getD b d) = l := by
  induction l with
  | nil => rfl
  | cons a t ih =>
      rw [List.length_cons, List.range_succ_eq_map, List.map_cons, List.map_map]
      exact congrArg (a :: ·) ih

lemma getD_map_of_fixed_nil (f : Mat → Mat) (hf : f [] = []) (l : T3) (b : ℕ) :
    (l.map f).getD b [] = f (l.getD b []) := by
  induction l generalizing b with
  | nil => simp [hf]
  | cons m t ih =>
      cases b with
      | zero => rfl
      | succ b' => simpa using ih b'

lemma restructureGo_flatten (szs : List (String × ℕ)) (idx : ℕ) (inputs : T3) (b : ℕ) :
    ((restructureGo szs idx inputs).map fun p => p.2.getD b []).flatten
      = ((inputs.getD b []).drop idx).take (szs.map Prod.snd).sum := by
  induction szs generalizing idx with
  | nil => rfl
  | cons hd rest ih =>
      obtain ⟨modality, size⟩ := hd
      rw [restructureGo, List.map_cons, List.flatten_cons, ih (idx + size)]
      rw [show (((modality, size) :: rest).map Prod.snd).sum = size + (rest.map Prod.snd).sum by simp]
      rw [List.take_add]
      congr 1
      · exact getD_map_of_fixed_nil _ (by simp) inputs b
      · rw [List.drop_drop]

lemma restructureGo_length (szs : List (String × ℕ)) (idx : ℕ) (inputs : T3) :
    (restructureGo szs idx inputs).length = szs.length := by
  induction szs generalizing idx with
  | nil => rfl
  | cons hd rest ih =>
      obtain ⟨modality, size⟩ := hd
      rw [restructureGo, List.length_cons, List.length_cons, ih]

/-- A sub-preprocessor of the multimodal preprocessor: its advertised
channel count (`preprocessor.num_channels`) and its forward map from the
raw modality input and the optional `pos` argument to
`(output, modality_sizes, inputs_without_pos)`. -/
structure SubPreprocessor where
  num_channels : ℕ
  run : T3 → Option T3 → T3 × Option (List (String × ℕ)) × T3

/-- `PerceiverMultimodalPreprocessor` state (source lines 2681-2705):
sub-preprocessors, masking probabilities, the learned `[1, common - c]`
padding row per modality, the learned `[1, common]` mask token per
modality, and the minimum padding size. -/
structure MultimodalPreprocessor where
  modalities : List (String × SubPreprocessor)
  mask_probs : List (String × ℚ)
  padding : List (String × Vec)
  mask : List (String × Vec)
  min_padding_size : ℕ

/-- `num_channels` property (source lines 2707-2712): the maximum
sub-preprocessor channel count plus `min_padding_size`. -/
def MultimodalPreprocessor.num_channels (mp : MultimodalPreprocessor) : ℕ :=
  (mp.modalities.map fun p => p.2.num_channels).foldr max 0 + mp.min_padding_size

/-- `(1 - mask) * output_padded + mask * mask_token` (source line 2752):
the sampled `[B, n]` mask scales each token row against the broadcast
mask token. -/
def maskCombine (mask : Mat) (mask_token : Vec) (padded : T3) : T3 :=
  padded.zipWith
    (fun m mrow => m.zipWith
      (fun row mv => List.zipWith (· + ·) (row.map fun x => (1 - mv) * x)
        (mask_token.map fun t => mv * t)) mrow)
    mask

/-- One iteration of the modality loop in
`PerceiverMultimodalPreprocessor.forward` (source lines 2724-2757): run
the sub-preprocessor, append the modality's learned padding row to every
token (`torch.broadcast_to` demands the parameter width equal
`num_channels - output channels`), optionally mask with the sampled
Bernoulli matrix `bern modality batch_size num_samples`, and record
`output_padded.shape[1]`. -/
def processModality (common : ℕ) (mask_probs : List (String × ℚ))
    (padding maskTokens : List (String × Vec)) (bern : String → ℕ → ℕ → Mat)
    (modality : String) (sub : SubPreprocessor) (input : T3) (pos : Option T3) :
    Option (T3 × ℕ × T3) :=
  let output := (sub.run input pos).1
  let without_pos := (sub.run input pos).2.2
  let batch_size := output.length
  let num_samples := seqLenT3 output
  let num_channels := lastDimT3 output
  (padding.lookup modality).bind fun padVec =>
    if padVec.length = common - num_channels then
      let output_padded := output.map fun m => m.map fun row => row ++ padVec
      (match mask_probs.lookup modality with
        | none => some output_padded
        | some _ => (maskTokens.lookup modality).map fun mask_token =>
            maskCombine (bern modality batch_size num_samples) mask_token output_padded
      ).map fun output_padded =>
        (output_padded, seqLenT3 output_padded, without_pos)
    else
      none

/-- The modality loop of `PerceiverMultimodalPreprocessor.forward`,
accumulating `(padded, size, inputs_without_pos)` per modality in
declaration order; a missing input or parameter key is a Python
`KeyError` (`none`). -/
def multimodalGo (common : ℕ) (mask_probs : List (String × ℚ))
    (padding maskTokens : List (String × Vec)) (bern : String → ℕ → ℕ → Mat)
    (inputs : List (String × T3)) (pos : Option T3) :
    List (String × SubPreprocessor) → Option (List (String × T3 × ℕ × T3))
  | [] => some []
  | (modality, sub) :: rest =>
      (inputs.lookup modality).bind fun input =>
        (processModality common mask_probs padding maskTokens bern modality sub input pos).bind
          fun psw =>
            (multimodalGo common mask_probs padding maskTokens bern inputs pos rest).map
              fun tail => (modality, psw) :: tail

/-- `PerceiverMultimodalPreprocessor.forward` (source lines 2714-2765):
preprocess and pad every modality, record its token count, then
concatenate the padded tensors along the sequence dimension in sorted
modality order. -/
def MultimodalPreprocessor.forward (mp : MultimodalPreprocessor)
    (bern : String → ℕ → ℕ → Mat) (inputs : List (String × T3)) (pos : Option T3) :
    Option (T3 × List (String × ℕ) × List (String × T3)) :=
  (multimodalGo mp.num_channels mp.mask_probs mp.padding mp.mask bern inputs pos
      mp.modalities).map fun results =>
    let padded := results.map fun r => (r.1, r.2.1)
    let modality_sizes := results.map fun r => (r.1, r.2.2.1)
    let inputs_without_pos := results.map fun r => (r.1, r.2.2.2)
    (catDim1 ((sortByKey padded).map Prod.snd), modality_sizes, inputs_without_pos)

lemma processModality_inv (common : ℕ) (mask_probs : List (String × ℚ))
    (padding maskTokens : List (String × Vec)) (bern : String → ℕ → ℕ → Mat)
    (modality : String) (sub : SubPreprocessor) (input : T3) (pos : Option T3)
    (p : T3) (sz : ℕ) (w : T3)
    (hbern : ∀ b n, (bern modality b n).length = b)
    (h : processModality common mask_probs padding maskTokens bern modality sub input pos
      = some (p, sz, w)) :
    sz = seqLenT3 p ∧ p.length = (sub.run input pos).1.length := by
  unfold processModality at h
  obtain ⟨padVec, hpad, h2⟩ := Option.bind_eq_some.mp h
  by_cases hlen : padVec.length = common - lastDimT3 (sub.run input pos).1
  · rw [if_pos hlen] at h2
    obtain ⟨op, hop, heq⟩ := Option.map_eq_some'.mp h2
    obtain ⟨rfl, rfl, rfl⟩ : op = p ∧ seqLenT3 op = sz ∧ (sub.run input pos).2.2 = w := by
      injection heq with h1 h23
      injection h23 with h2' h3'
      exact ⟨h1, h2', h3'⟩
    refine ⟨rfl, ?_⟩
    rcases hmp : mask_probs.lookup modality with _ | q
    · rw [hmp] at hop
      obtain rfl := Option.some_injective _ hop
      simp
    · rw [hmp] at hop
      obtain ⟨tok, htok, rfl⟩ := Option.map_eq_some'.mp hop
      simp [maskCombine, hbern]
  · rw [if_neg hlen] at h2
    exact absurd h2 (by simp)

lemma multimodalGo_inv (common : ℕ) (mask_probs : List (String × ℚ))
    (padding maskTokens : List (String × Vec)) (bern : String → ℕ → ℕ → Mat)
    (inputs : List (String × T3)) (pos : Option T3)
    (modalities : List (String × SubPreprocessor))
    (results : List (String × T3 × ℕ × T3)) (B₀ : ℕ)
    (hbern : ∀ nm b n, (bern nm b n).length = b)
    (hbatch : ∀ q ∈ modalities, ∀ x y, (q.2.run x y).1.length = B₀)
    (h : multimodalGo common mask_probs padding maskTokens bern inputs pos modalities
      = some results) :
    results.length = modalities.length
    ∧ ∀ r ∈ results, r.2.2.1 = seqLenT3 r.2.1 ∧ r.2.1.length = B₀ := by
  induction modalities generalizing results with
  | nil =>
      obtain rfl := Option.some_injective _ h.symm
      exact ⟨rfl, by simp⟩
  | cons hd rest ih =>
      obtain ⟨modality, sub⟩ := hd
      rw [multimodalGo] at h
      obtain ⟨input, hinput, h2⟩ := Option.bind_eq_some.mp h
      obtain ⟨psw, hpsw, h3⟩ := Option.bind_eq_some.mp h2
      obtain ⟨tail, htail, rfl⟩ := Option.map_eq_some'.mp h3
      obtain ⟨hlen, hmem⟩ := ih tail (fun q hq x y => hbatch q (List.mem_cons_of_mem _ hq) x y) htail
      obtain ⟨p, sz, w⟩ := psw
      obtain ⟨hsz, hp⟩ := processModality_inv common mask_probs padding maskTokens bern
        modality sub input pos p sz w (hbern modality) hpsw
      refine ⟨by simpa using hlen, ?_⟩
      intro r hr
      rcases List.mem_cons.mp hr with rfl | hr'
      · exact ⟨hsz, hp.trans (hbatch _ (List.mem_cons_self _ _) input pos)⟩
      · exact hmem r hr'

lemma headD_map_range {α : Type} (f : ℕ → α) (n : ℕ) (d : α) (hn : 0 < n) :
    ((List.range n).map f).headD d = f 0 := by
  cases n with
  | zero => omega
  | succ k => rw [List.range_succ_eq_map, List.map_cons, List.headD_cons]

lemma seqLen_catDim1 (ts : List T3) (hB : 0 < (ts.headD []).length) :
    seqLenT3 (catDim1 ts) = (ts.map fun t => seqLenT3 t).sum := by
  unfold catDim1
  unfold seqLenT3
  rw [headD_map_range _ _ _ hB, List.length_flatten, List.map_map]
  congr 1
  rw [List.map_eq_map_iff]
  intro t _
  simp only [Function.comp_apply, getD_zero_headD]

/-- C2: (i) slicing a `[B, N, C]` tensor by `restructure` (consecutive
spans in alphabetical modality order) and concatenating the pieces back
in the same order reproduces the tensor whenever `N` is the sum of the
recorded sizes; (ii) the per-modality sizes recorded by
`PerceiverMultimodalPreprocessor.forward` sum to the sequence length of
its concatenated output. -/
theorem multimodal_restructure_roundtrip :
    (∀ (modality_sizes : List (String × ℕ)) (inputs : T3),
      modality_sizes ≠ [] →
      (∀ m ∈ inputs, m.length = (modality_sizes.map Prod.snd).sum) →
      catDim1 ((restructure modality_sizes inputs).map Prod.snd) = inputs)
    ∧ (∀ (mp : MultimodalPreprocessor) (bern : String → ℕ → ℕ → Mat)
        (inputs : List (String × T3)) (pos : Option T3) (B₀ : ℕ)
        (final : T3) (sizes : List (String × ℕ)) (iwp : List (String × T3)),
      mp.modalities ≠ [] → 0 < B₀ →
      (∀ nm b n, (bern nm b n).length = b) →
      (∀ q ∈ mp.modalities, ∀ x y, (q.2.run x y).1.length = B₀) →
      mp.forward bern inputs pos = some (final, sizes, iwp) →
      (sizes.map Prod.snd).sum = seqLenT3 final) := by
  constructor
  · intro ms inputs hne hrows
    have hperm : (sortByKey ms).Perm ms := List.perm_insertionSort _ ms
    have hsum : ((sortByKey ms).map Prod.snd).sum = (ms.map Prod.snd).sum :=
      (hperm.map Prod.snd).sum_eq
    obtain ⟨⟨nm₀, s₀⟩, tl, hcons⟩ : ∃ hd tl, sortByKey ms = hd :: tl := by
      have hlen : (sortByKey ms).length = ms.length := hperm.length_eq
      cases hsk : sortByKey ms with
      | nil =>
          rw [hsk, List.length_nil] at hlen
          exact absurd (List.length_eq_zero.mp hlen.symm) hne
      | cons a l => exact ⟨a, l, rfl⟩
    have hfirst : ((restructure ms inputs).map Prod.snd).headD []
        = sliceRows 0 s₀ inputs := by
      unfold restructure
      rw [hcons, restructureGo, List.map_cons]
      rfl
    have hstep : ∀ b ∈ List.range inputs.length,
        (((restructure ms inputs).map Prod.snd).map fun t => t.getD b []).flatten
          = inputs.getD b [] := by
      intro b hb
      have hb' := List.mem_range.mp hb
      have hmem : inputs.getD b [] ∈ inputs := by
        rw [List.getD_eq_getElem inputs [] hb']
        exact List.getElem_mem hb'
      rw [List.map_map]
      unfold restructure
      calc ((restructureGo (sortByKey ms) 0 inputs).map
              ((fun t => t.getD b []) ∘ Prod.snd)).flatten
          = ((restructureGo (sortByKey ms) 0 inputs).map fun p => p.2.getD b []).flatten :=
            rfl
        _ = ((inputs.getD b []).drop 0).take ((sortByKey ms).map Prod.snd).sum :=
            restructureGo_flatten (sortByKey ms) 0 inputs b
        _ = inputs.getD b [] := by
            rw [List.drop_zero, hsum, ← hrows _ hmem, List.take_length]
    unfold catDim1
    rw [hfirst, show (sliceRows 0 s₀ inputs).length = inputs.length from List.length_map _ _]
    exact (List.map_eq_map_iff.mpr hstep).trans (map_getD_range inputs [])
  · intro mp bern inputs pos B₀ final sizes iwp hne hB hbern hbatch h
    unfold MultimodalPreprocessor.forward at h
    obtain ⟨results, hres, heq⟩ := Option.map_eq_some'.mp h
    obtain ⟨hfin, hsizes, _hiwp⟩ :
        catDim1 (((sortByKey (results.map fun r => (r.1, r.2.1))).map Prod.snd)) = final
        ∧ (results.map fun r => (r.1, r.2.2.1)) = sizes
        ∧ (results.map fun r => (r.1, r.2.2.2)) = iwp := by
      injection heq with h1 h23
      injection h23 with h2 h3
      exact ⟨h1, h2, h3⟩
    obtain ⟨hrlen, hinv⟩ := multimodalGo_inv mp.num_channels mp.mask_probs mp.padding
      mp.mask bern inputs pos mp.modalities results B₀ hbern hbatch hres
    have hpieceperm : (sortByKey (results.map fun r => (r.1, r.2.1))).Perm
        (results.map fun r => (r.1, r.2.1)) := List.perm_insertionSort _ _
    have hts : ∀ t ∈ (sortByKey (results.map fun r => (r.1, r.2.1))).map Prod.snd,
        t.length = B₀ := by
      intro t ht
      obtain ⟨q, hq, rfl⟩ := List.mem_map.mp ht
      have hq' : q ∈ results.map fun r => (r.1, r.2.1) := hpieceperm.mem_iff.mp hq
      obtain ⟨r, hr, rfl⟩ := List.mem_map.mp hq'
      exact (hinv r hr).2
    obtain ⟨t₀, ts', hts0⟩ : ∃ t₀ ts',
        (sortByKey (results.map fun r => (r.1, r.2.1))).map Prod.snd = t₀ :: ts' := by
      have hrne : results ≠ [] := by
        intro hrnil
        rw [hrnil, List.length_nil] at hrlen
        exact hne (List.length_eq_zero.mp hrlen.symm)
      have hlen2 : ((sortByKey (results.map fun r => (r.1, r.2.1))).map Prod.snd).length
          = results.length := by
        rw [List.length_map, hpieceperm.length_eq, List.length_map]
      cases hc : (sortByKey (results.map fun r => (r.1, r.2.1))).map Prod.snd with
      | nil =>
          rw [hc, List.length_nil] at hlen2
          exact absurd (List.length_eq_zero.mp hlen2.symm) hrne
      | cons a l => exact ⟨a, l, rfl⟩
    have hhead : 0 < (((sortByKey (results.map fun r => (r.1, r.2.1))).map
        Prod.snd).headD []).length := by
      rw [hts0, List.headD_cons]
      rw [hts (t₀) (hts0 ▸ List.mem_cons_self _ _)]
      exact hB
    rw [← hfin, seqLen_catDim1 _ hhead, ← hsizes]
    rw [List.map_map, List.map_map]
    have hL : (results.map (Prod.snd ∘ fun r => (r.1, r.2.2.1)))
        = results.map fun r => seqLenT3 r.2.1 := by
      rw [List.map_eq_map_iff]
      intro r hr
      exact (hinv r hr).1
    rw [hL]
    have hR : ((sortByKey (results.map fun r => (r.1, r.2.1))).map
        ((fun t => seqLenT3 t) ∘ Prod.snd)).sum
        = ((results.map fun r => (r.1, r.2.1)).map ((fun t => seqLenT3 t) ∘ Prod.snd)).sum :=
      (hpieceperm.map _).sum_eq
    rw [hR, List.map_map]
    rfl

/-- Witness for `multimodal_restructure_roundtrip`: a two-modality size
map over a `[1, 2, 1]` tensor round-trips, and a one-modality
preprocessor (1 channel, padded by the learned `[5, 5]` row to the
common width `1 + 2`) records sizes summing to its output's sequence
length. -/
theorem multimodal_restructure_roundtrip_witness :
    catDim1 ((restructure [("a", 1), ("b", 1)] [[[1], [2]]]).map Prod.snd) = [[[1], [2]]]
    ∧ (([(("img" : String), (1 : ℕ))]).map Prod.snd).sum = seqLenT3 [[[7, 5, 5]]] :=
  ⟨multimodal_restructure_roundtrip.1 [("a", 1), ("b", 1)] [[[1], [2]]]
      (List.cons_ne_nil _ _)
      (by
        intro m hm
        rw [List.mem_singleton] at hm
        subst hm
        decide),
    multimodal_restructure_roundtrip.2
      ⟨[("img", ⟨1, fun _ _ => ([[[7]]], none, [[[7]]])⟩)], [], [("img", [5, 5])], [], 2⟩
      (fun _ b _ => List.replicate b []) [("img", [[[7]]])] none 1
      [[[7, 5, 5]]] [("img", 1)] [("img", [[[7]]])]
      (List.cons_ne_nil _ _) (by decide)
      (fun _ b _ => List.length_replicate b [])
      (by
        intro q hq x y
        rw [List.mem_singleton] at hq
        subst hq
        rfl)
      rfl⟩

/-! ### C4/C8: Basic decoder queries
(`PerceiverBasicDecoder.decoder_query`, source lines 1636-1682) -/

/-- The decoder's position-encoding kind (`build_position_encoding`
rejects anything else at construction). -/
inductive PosEncType where
  | trainable
  | fourier
  | nonetype
  deriving Repr, DecidableEq

/-- The state of a `PerceiverBasicDecoder` that `decoder_query` reads:
the encoding kind, `output_index_dims`, the Fourier configuration, the
trainable `[prod(index_dims), channels]` table, the optional projection
(`nn.Identity` when `project_pos_dim <= 0`), and
`concat_preprocessed_input`. -/
structure BasicDecoder where
  position_encoding_type : PosEncType
  output_index_dims : List ℕ
  fourierEnc : PerceiverFourierPositionEncoding
  trainable_table : Mat
  positions_projection : Option Linear
  concat_preprocessed_input : Bool

/-- `np.unravel_index` of one flat index over row-major `dims`. -/
def unravelIndex1 : List ℕ → ℕ → List ℕ
  | [], _ => []
  | _ :: rest, flat => (flat / rest.prod) :: unravelIndex1 rest (flat % rest.prod)

/-- Apply `self.positions_projection` to every row of either rank
(`nn.Identity` when no projection is configured). -/
def applyProjection (proj : Option Linear) : FourierOut → Option FourierOut
  | .batched t =>
      match proj with
      | none => some (.batched t)
      | some l => (t.mapM l.applyMat).map .batched
  | .unbatched m =>
      match proj with
      | none => some (.unbatched m)
      | some l => (l.applyMat m).map .unbatched

/-- `torch.reshape(pos_emb, [pos_emb.shape[0], -1, pos_emb.shape[-1]])`
(source line 1661): the identity on a `[B, K, C]` tensor; a `[K, C]`
tensor becomes `[K, 1, C]`. -/
def reshapeKeepEnds : FourierOut → FourierOut
  | .batched t => .batched t
  | .unbatched m => .batched (m.map fun r => [r])

/-- One entry of either tensor rank. -/
def FourierOut.entry (o : FourierOut) (b i j : ℕ) : ℚ :=
  match o with
  | .batched t => ((t.getD b []).getD i []).getD j 0
  | .unbatched m => (m.getD i []).getD j 0

/-- `PerceiverBasicDecoder.decoder_query` (source lines 1636-1682).  The
`inputs` tensor only contributes its shape (`inputs.shape[0]` and
`inputs.shape[2:]`), passed here as `inputs_shape`.  With subsampling,
the flat indices are unravelled over `output_index_dims`, mapped to
`-1 + 2 * idx / dims`, broadcast over the batch and fed to the Fourier
encoding (the trainable variant returns its full table unchanged);
without subsampling the dense grid over `inputs.shape[2:]` is used.  If
`concat_preprocessed_input` is set, the source then calls
`torch.cat([inputs_without_pos, pos_emb], div=-1)` — `torch.cat` accepts
`dim`, not `div`, so that call raises a `TypeError` at run time. -/
def BasicDecoder.decoder_query (dec : BasicDecoder) (s c : ℚ → ℚ)
    (inputs_shape : List ℕ) (inputs_without_pos : Option T3)
    (subsampled_points : Option (List ℕ)) : Except String FourierOut :=
  if dec.position_encoding_type = .nonetype then
    .error "You cannot construct decoder queries when position_encoding_type is set to none"
  else
    let posEmbE : Except String FourierOut :=
      match subsampled_points with
      | some pts =>
          let indices := pts.map (unravelIndex1 dec.output_index_dims)
          let batch_size := inputs_shape.headD 0
          let pos : Mat := indices.map fun idx =>
            (idx.zip dec.output_index_dims).map fun iN => -1 + 2 * (iN.1 : ℚ) / (iN.2 : ℚ)
          let posB : T3 := List.replicate batch_size pos
          let pe : Except String FourierOut :=
            match dec.position_encoding_type with
            | .trainable => .ok (.batched (List.replicate batch_size dec.trainable_table))
            | _ =>
                match dec.fourierEnc.forward s c dec.output_index_dims batch_size
                    (some posB) with
                | some o => .ok o
                | none => .error "AssertionError in _check_or_build_spatial_positions"
          pe.bind fun pe =>
            match applyProjection dec.positions_projection pe with
            | some pe => .ok (reshapeKeepEnds pe)
            | none => .error "projection shape mismatch"
      | none =>
          let batch_size := inputs_shape.headD 0
          let index_dims := inputs_shape.drop 2
          let pe : Except String FourierOut :=
            match dec.position_encoding_type with
            | .trainable => .ok (.batched (List.replicate batch_size dec.trainable_table))
            | _ =>
                match dec.fourierEnc.forward s c index_dims batch_size none with
                | some o => .ok o
                | none => .error "AssertionError in _check_or_build_spatial_positions"
          pe.bind fun pe =>
            match applyProjection dec.positions_projection pe with
            | some pe => .ok pe
            | none => .error "projection shape mismatch"
    posEmbE.bind fun pos_emb =>
      if dec.concat_preprocessed_input then
        match inputs_without_pos with
        | none =>
            .error "Value is required for inputs_without_pos if concat_preprocessed_input is True"
        | some _ => .error "TypeError: cat() got an unexpected keyword argument div"
      else
        .ok pos_emb

/-- C8 (code bug): with `concat_preprocessed_input` set, `decoder_query`
does raise a `ValueError` when `inputs_without_pos` is missing — but when
`inputs_without_pos` *is* provided it never returns the concatenation:
source line 1678 spells the `torch.cat` keyword `div=-1` instead of
`dim=-1`, so the call raises `TypeError: cat() got an unexpected keyword
argument 'div'`. -/
theorem decoder_query_concat_div_typeerror :
    BasicDecoder.decoder_query
        ⟨.trainable, [3], ⟨0, [], false, false⟩, [[1]], none, true⟩
        id id [1, 3, 1] none none
      = .error "Value is required for inputs_without_pos if concat_preprocessed_input is True"
    ∧ BasicDecoder.decoder_query
        ⟨.trainable, [3], ⟨0, [], false, false⟩, [[1]], none, true⟩
        id id [1, 3, 1] (some [[[2]]]) none
      = .error "TypeError: cat() got an unexpected keyword argument div" :=
  ⟨rfl, rfl⟩

lemma unravelIndex1_length (dims : List ℕ) (flat : ℕ) :
    (unravelIndex1 dims flat).length = dims.length := by
  induction dims generalizing flat with
  | nil => rfl
  | cons d rest ih => rw [unravelIndex1, List.length_cons, List.length_cons, ih]

lemma headD_replicate {α : Type} (n : ℕ) (x d : α) (hn : 0 < n) :
    (List.replicate n x).headD d = x := by
  cases n with
  | zero => omega
  | succ k => rfl

lemma getD_map_lt {α β : Type} (f : α → β) (l : List α) (i : ℕ) (d : α) (d' : β)
    (h : i < l.length) : (l.map f).getD i d' = f (l.getD i d) := by
  rw [List.getD_eq_getElem _ _ (by simpa using h), List.getD_eq_getElem _ _ h]
  exact List.getElem_map f

lemma getD_zipWith_lt {α : Type} (f : α → α → α) (as bs : List α) (i : ℕ) (d : α)
    (ha : i < as.length) (hb : i < bs.length) :
    (List.zipWith f as bs).getD i d = f (as.getD i d) (bs.getD i d) := by
  rw [List.getD_eq_getElem _ _ (by rw [List.length_zipWith]; omega),
    List.getD_eq_getElem _ _ ha, List.getD_eq_getElem _ _ hb]
  exact List.getElem_zipWith

/-- C4 (counterexample): a Basic decoder with Fourier encoding over a
`(2,)` output grid, queried with the subsample index list `[1]`, returns
the query row for position `-1 + 2·1/2 = 0`, while the full-grid query's
row at flattened index 1 sits at the `linspace(-1, 1, 2)` position `1`:
the subsampled entries do not match the full-grid entries at the same
flattened indices. -/
theorem decoder_subsample_counterexample :
    ∃ sub full : FourierOut,
      BasicDecoder.decoder_query ⟨.fourier, [2], ⟨1, [2], true, false⟩, [], none, false⟩
          id id [1, 9, 2] none (some [1]) = .ok sub
      ∧ BasicDecoder.decoder_query ⟨.fourier, [2], ⟨1, [2], true, false⟩, [], none, false⟩
          id id [1, 9, 2] none none = .ok full
      ∧ sub.entry 0 0 0 ≠ full.entry 0 1 0 := by
  refine ⟨.batched [[[0, 0, 0]]], .batched [[[-1, -1, -1], [1, 1, 1]]], ?_, ?_, ?_⟩
  · norm_num [BasicDecoder.decoder_query, PerceiverFourierPositionEncoding.forward,
      checkOrBuildSpatialPositions, generate_fourier_features, fourierFreqBands,
      fourierRawRow, linspace, unravelIndex1, applyProjection, reshapeKeepEnds,
      List.range_succ]
    rfl
  · norm_num [BasicDecoder.decoder_query, PerceiverFourierPositionEncoding.forward,
      checkOrBuildSpatialPositions, generate_fourier_features, fourierFreqBands,
      fourierRawRow, linspace, build_linear_positions, cartesianProduct,
      applyProjection, List.range_succ]
    rfl
  · norm_num [FourierOut.entry]

/-- C4 (amended): for a Fourier Basic decoder (with raw positions
concatenated and no projection), `decoder_query` over a flat subsample
list of length `K` returns a `[B, K, ·]` query whose row `i` starts with
the positions `-1 + 2 · unravel(pts[i]) / output_index_dims`; these are
the subsample-formula positions, not the full grid's
`linspace(-1, 1, N)` positions, so the entries need not match full-grid
decoding at the same flattened indices.  The trainable variant ignores
the subsample list altogether and returns its full position table. -/
theorem decoder_subsample_query_amended
    (dec : BasicDecoder) (s c : ℚ → ℚ) (inputs_shape : List ℕ) (pts : List ℕ) (B K : ℕ)
    (hty : dec.position_encoding_type = .fourier)
    (hproj : dec.positions_projection = none)
    (hconcat : dec.concat_preprocessed_input = false)
    (hcp : dec.fourierEnc.concat_pos = true)
    (hB : inputs_shape.headD 0 = B) (hB0 : 0 < B) (hK : pts.length = K) :
    (∃ t : T3,
      dec.decoder_query s c inputs_shape none (some pts) = .ok (.batched t)
      ∧ t.length = B
      ∧ (∀ m ∈ t, m.length = K)
      ∧ ∀ m ∈ t, ∀ i, i < K →
          (m.getD i []).take dec.output_index_dims.length
            = ((unravelIndex1 dec.output_index_dims (pts.getD i 0)).zip
                dec.output_index_dims).map fun iN => -1 + 2 * (iN.1 : ℚ) / (iN.2 : ℚ))
    ∧ ∀ dec' : BasicDecoder, dec'.position_encoding_type = .trainable →
        dec'.positions_projection = none → dec'.concat_preprocessed_input = false →
        dec'.decoder_query s c inputs_shape none (some pts)
          = .ok (.batched (List.replicate B dec'.trainable_table)) := by
  constructor
  · have hne : ¬ dec.position_encoding_type = .nonetype := by
      rw [hty]
      intro hcon
      cases hcon
    set dims := dec.output_index_dims with hdims
    set pos : Mat := (pts.map (unravelIndex1 dims)).map
        (fun idx => (idx.zip dims).map fun iN => -1 + 2 * (iN.1 : ℚ) / (iN.2 : ℚ))
      with hposdef
    have hposlen : pos.length = K := by
      rw [hposdef, List.length_map, List.length_map, hK]
    have hposrows : ∀ r ∈ pos, r.length = dims.length := by
      intro r hr
      obtain ⟨idx, hidx, rfl⟩ := List.mem_map.mp hr
      obtain ⟨p, _hp, rfl⟩ := List.mem_map.mp hidx
      rw [List.length_map, List.length_zip, unravelIndex1_length]
      omega
    have hall : (List.all (List.replicate B pos) fun m => List.all m fun r =>
        decide (r.length = dims.length)) = true := by
      rw [List.all_eq_true]
      intro m hm
      rw [List.eq_of_mem_replicate hm, List.all_eq_true]
      intro r hr
      simpa using hposrows r hr
    have hcheck : checkOrBuildSpatialPositions (some (List.replicate B pos)) dims B
        = some (List.replicate B pos) := by
      simp [checkOrBuildSpatialPositions, hall]
    have hfwd : dec.fourierEnc.forward s c dims B (some (List.replicate B pos))
        = some (generate_fourier_features s c (List.replicate B pos)
            dec.fourierEnc.num_bands dec.fourierEnc.max_resolution
            dec.fourierEnc.concat_pos dec.fourierEnc.sine_only) := by
      unfold PerceiverFourierPositionEncoding.forward
      rw [hcheck, Option.map_some']
    have hheadD : (List.replicate B pos).headD ([] : Mat) = pos :=
      headD_replicate B pos [] hB0
    obtain ⟨ppf, hgff, hppflen⟩ : ∃ ppf : Mat,
        generate_fourier_features s c (List.replicate B pos)
            dec.fourierEnc.num_bands dec.fourierEnc.max_resolution
            dec.fourierEnc.concat_pos dec.fourierEnc.sine_only
          = .batched ((List.replicate B pos).map fun m => m.zipWith (· ++ ·) ppf)
        ∧ ppf.length = pos.length := by
      unfold generate_fourier_features
      rw [hcp]
      refine ⟨_, rfl, ?_⟩
      rw [hheadD]
      cases dec.fourierEnc.sine_only <;> simp
    refine ⟨(List.replicate B pos).map fun m => m.zipWith (· ++ ·) ppf, ?_, ?_, ?_, ?_⟩
    · unfold BasicDecoder.decoder_query
      rw [if_neg hne]
      simp only [hty, hproj, hB]
      rw [← hdims, ← hposdef, hfwd, hgff]
      simp only [applyProjection, reshapeKeepEnds, hconcat]
      rfl
    · rw [List.length_map, List.length_replicate]
    · intro m hm
      obtain ⟨m', hm', rfl⟩ := List.mem_map.mp hm
      rw [List.eq_of_mem_replicate hm', List.length_zipWith, hposlen, hppflen, hposlen]
      omega
    · intro m hm i hi
      obtain ⟨m', hm', rfl⟩ := List.mem_map.mp hm
      rw [List.eq_of_mem_replicate hm']
      have hip : i < pos.length := by omega
      have hippf : i < ppf.length := by omega
      rw [getD_zipWith_lt _ _ _ _ _ hip hippf]
      have hmem : pos.getD i [] ∈ pos := by
        rw [List.getD_eq_getElem _ _ hip]
        exact List.getElem_mem hip
      rw [show dims.length = (pos.getD i []).length from (hposrows _ hmem).symm,
        List.take_left]
      rw [hposdef]
      rw [getD_map_lt _ _ _ [] [] (by rw [List.length_map]; omega)]
      rw [getD_map_lt _ _ _ 0 [] (by omega)]
  · intro dec' hty' hproj' hconcat'
    unfold BasicDecoder.decoder_query
    simp only [hty', hproj', hconcat', hB]
    rfl

/-- Witness for `decoder_subsample_query_amended`: the Fourier decoder of
the counterexample configuration, subsample list `[1]`, batch 1. -/
theorem decoder_subsample_query_amended_witness :
    (∃ t : T3,
      BasicDecoder.decoder_query
          ⟨.fourier, [2], ⟨1, [2], true, false⟩, [], none, false⟩
          id id [1, 9, 2] none (some [1]) = .ok (.batched t)
      ∧ t.length = 1
      ∧ (∀ m ∈ t, m.length = 1)
      ∧ ∀ m ∈ t, ∀ i, i < 1 →
          (m.getD i []).take
              (⟨.fourier, [2], ⟨1, [2], true, false⟩, [], none,
                false⟩ : BasicDecoder).output_index_dims.length
            = ((unravelIndex1
                  (⟨.fourier, [2], ⟨1, [2], true, false⟩, [], none,
                    false⟩ : BasicDecoder).output_index_dims
                  (([1] : List ℕ).getD i 0)).zip
                (⟨.fourier, [2], ⟨1, [2], true, false⟩, [], none,
                  false⟩ : BasicDecoder).output_index_dims).map
                fun iN => -1 + 2 * (iN.1 : ℚ) / (iN.2 : ℚ))
    ∧ ∀ dec' : BasicDecoder, dec'.position_encoding_type = .trainable →
        dec'.positions_projection = none → dec'.concat_preprocessed_input = false →
        dec'.decoder_query id id [1, 9, 2] none (some [1])
          = .ok (.batched (List.replicate 1 dec'.trainable_table)) :=
  decoder_subsample_query_amended
    ⟨.fourier, [2], ⟨1, [2], true, false⟩, [], none, false⟩
    id id [1, 9, 2] [1] 1 1 rfl rfl rfl rfl rfl (by decide) rfl

/-! ### C7: the attention module's output projection and query residual
(`PerceiverAttention`, source lines 343-444) -/

/-- `config.cross_attention_shape_for_attention` (any other string is
rejected at construction, source lines 364-368). -/
inductive CrossShape where
  | q
  | kv
  deriving Repr, DecidableEq

/-- The learned parameters of one attention module: the two layer norms'
affine weights and the four projection matrices. -/
structure AttentionParams where
  ln1γ : Vec
  ln1β : Vec
  ln2γ : Vec
  ln2β : Vec
  wq : Mat
  bq : Vec
  wk : Mat
  bk : Vec
  wv : Mat
  bv : Vec
  wo : Mat
  bo : Vec

/-- `PerceiverSelfAttention` with its weights: layer norms (`ln2 = none`
models the `nn.Identity` used for self-attention) and the Q/K/V
projections. -/
structure SelfAttention where
  num_heads : ℕ
  qk_channels : ℕ
  v_channels : ℕ
  ln1γ : Vec
  ln1β : Vec
  ln2 : Option (Vec × Vec)
  query : Linear
  key : Linear
  value : Linear

/-- `PerceiverAttention`: the inner attention plus the output projection
(`PerceiverSelfOutput`) and the query-residual flag. -/
structure PerceiverAttention where
  selfAttn : SelfAttention
  output : Linear
  use_query_residual : Bool

/-- `nn.LayerNorm` on one row:
`(x - mean) / sqrt(var + 1e-5) * γ + β` (`sqrtf` models `sqrt`). -/
def layerNormRow (sqrtf : ℚ → ℚ) (γ β x : Vec) : Vec :=
  let n : ℚ := (x.length : ℚ)
  let μ := x.sum / n
  let σ2 := (x.map fun v => (v - μ) ^ 2).sum / n
  List.zipWith (· + ·)
    (List.zipWith (· * ·) (x.map fun v => (v - μ) / sqrtf (σ2 + 1 / 100000)) γ) β

/-- `transpose_for_scores` (source lines 227-230) on one batch element:
head `h` sees the channel slice `[h·cph, (h+1)·cph)` of every row. -/
def splitHeads (num_heads channels_per_head : ℕ) (m : Mat) : List Mat :=
  (List.range num_heads).map fun h =>
    m.map fun row => (row.drop (h * channels_per_head)).take channels_per_head

/-- `A @ Bᵀ` (the raw attention scores of one head). -/
def matMulT (A B : Mat) : Mat :=
  A.map fun ar => B.map fun br => dot ar br

/-- Softmax over one row of scores (`expf` models `exp`). -/
def softmaxRow (expf : ℚ → ℚ) (r : Vec) : Vec :=
  let es := r.map expf
  es.map fun e => e / es.sum

/-- Scale a row by a scalar. -/
def vecScale (p : ℚ) (v : Vec) : Vec := v.map fun x => p * x

/-- Elementwise sum of two rows. -/
def vecAdd (a b : Vec) : Vec := List.zipWith (· + ·) a b

/-- Sum a list of equal-length rows. -/
def sumVecs : List Vec → Vec
  | [] => []
  | [v] => v
  | v :: rest => vecAdd v (sumVecs rest)

/-- Undo the head split: concatenate the per-head context rows
(source lines 322-324). -/
def mergeHeads (ctxs : List Mat) : Mat :=
  match ctxs with
  | [] => []
  | h0 :: _ => (List.range h0.length).map fun i => (ctxs.map fun hm => hm.getD i []).flatten

/-- `PerceiverSelfAttention.forward` (source lines 232-330) on one batch
element: normalize both sides, project Q (from the normalized hidden
states) and K/V (from the normalized `inputs` when cross-attending, else
from the hidden states, in which case the mask is the self-attention
mask), split heads, scaled dot-product scores, optional additive mask,
softmax, optional head mask, weighted value sum, merge heads.
`nn.Dropout` is the identity in evaluation mode. -/
def SelfAttention.forwardOne (sa : SelfAttention) (sqrtf expf : ℚ → ℚ)
    (attention_mask : Option Mat) (head_mask : Option (List Mat))
    (inputs : Option Mat) (inputs_mask : Option Mat) (hidden_states : Mat) :
    Option Mat :=
  let hs := hidden_states.map (layerNormRow sqrtf sa.ln1γ sa.ln1β)
  let inp := inputs.map fun m =>
    match sa.ln2 with
    | none => m
    | some gb => m.map (layerNormRow sqrtf gb.1 gb.2)
  (sa.query.applyMat hs).bind fun queries =>
    let kvsrc := match inp with | some m => m | none => hs
    let amask := match inp with | some _ => inputs_mask | none => attention_mask
    (sa.key.applyMat kvsrc).bind fun keys =>
      (sa.value.applyMat kvsrc).bind fun values =>
        let q_head_dim := sa.qk_channels / sa.num_heads
        let v_head_dim := sa.v_channels / sa.num_heads
        let qh := splitHeads sa.num_heads q_head_dim queries
        let kh := splitHeads sa.num_heads q_head_dim keys
        let vh := splitHeads sa.num_heads v_head_dim values
        let scores := List.zipWith (fun qm km =>
          (matMulT qm km).map fun r => r.map fun x => x / sqrtf (q_head_dim : ℚ)) qh kh
        let scores := match amask with
          | none => scores
          | some mask => scores.map fun sm => List.zipWith vecAdd sm mask
        let probs := scores.map fun sm => sm.map (softmaxRow expf)
        let probs := match head_mask with
          | none => probs
          | some hm => List.zipWith (fun pm hmm =>
              List.zipWith (fun pr hr => List.zipWith (· * ·) pr hr) pm hmm) probs hm
        let ctx := List.zipWith (fun pm vm =>
          pm.map fun prow => sumVecs (List.zipWith vecScale prow vm)) probs vh
        some (mergeHeads ctx)

/-- `PerceiverAttention.forward` (source lines 412-444) on one batch
element: run the inner attention, apply the output projection, and — when
`use_query_residual` is set — add the *un-normalized* query input
`hidden_states` to the projected output. -/
def PerceiverAttention.forwardOne (a : PerceiverAttention) (sqrtf expf : ℚ → ℚ)
    (attention_mask : Option Mat) (head_mask : Option (List Mat))
    (inputs : Option Mat) (inputs_mask : Option Mat) (hidden_states : Mat) :
    Option Mat :=
  (a.selfAttn.forwardOne sqrtf expf attention_mask head_mask inputs inputs_mask
      hidden_states).bind fun ctx =>
    (a.output.applyMat ctx).map fun attention_output =>
      if a.use_query_residual then List.zipWith vecAdd attention_output hidden_states
      else attention_output

/-- `PerceiverAttention.__init__` (source lines 346-392): resolve
`qk_channels`/`v_channels` (for cross-attention with no explicit
`qk_channels`, from `cross_attention_shape_for_attention`), construct the
inner `PerceiverSelfAttention` (with its divisibility checks), and build
the output projection with `output_channels = q_dim` for cross-attention
and `output_channels = v_channels` — *not* `q_dim` — otherwise. -/
def mkPerceiverAttention (shape : CrossShape) (is_cross_attention : Bool)
    (qk_channels v_channels : Option ℕ) (num_heads q_dim kv_dim : ℕ)
    (use_query_residual : Bool) (p : AttentionParams) :
    Except String PerceiverAttention :=
  let qkv : Option ℕ × Option ℕ :=
    if is_cross_attention && qk_channels.isNone then
      (some (match shape with | .q => q_dim | .kv => kv_dim), v_channels)
    else
      (some (qk_channels.getD q_dim), some (v_channels.getD (qk_channels.getD q_dim)))
  (selfAttentionInit qkv.1 qkv.2 num_heads q_dim kv_dim).map fun cfg =>
    let output_channels := if is_cross_attention then q_dim else qkv.2.getD cfg.v_channels
    { selfAttn :=
        { num_heads := num_heads, qk_channels := cfg.qk_channels,
          v_channels := cfg.v_channels,
          ln1γ := p.ln1γ, ln1β := p.ln1β,
          ln2 := if is_cross_attention then some (p.ln2γ, p.ln2β) else none,
          query := { inF := q_dim, outF := cfg.qk_channels, weight := p.wq, bias := p.bq },
          key := { inF := kv_dim, outF := cfg.qk_channels, weight := p.wk, bias := p.bk },
          value := { inF := kv_dim, outF := cfg.v_channels, weight := p.wv, bias := p.bv } },
      output := { inF := cfg.v_channels, outF := output_channels,
                  weight := p.wo, bias := p.bo },
      use_query_residual := use_query_residual }

/-- C7 (counterexample): a self-attention module built with `q_dim = 2`
and `v_channels = 4` output-projects to 4 channels, not to the query
width 2 — both in the constructed projection layer and in an actual
forward output — refuting "output-projected to q_dim" for self-attention
with explicit `v_channels`.  (With zero layer-norm weights, an
all-zero Q/K projection and `value` bias `[7,7,7,7]`, the forward output
is exactly `[[7,7,7,7]]`.) -/
theorem attention_output_projection_counterexample :
    ∃ a : PerceiverAttention,
      mkPerceiverAttention .kv false none (some 4) 1 2 2 false
          ⟨[0, 0], [0, 0], [0, 0], [0, 0],
            [[0, 0], [0, 0]], [0, 0],
            [[0, 0], [0, 0]], [0, 0],
            [[0, 0], [0, 0], [0, 0], [0, 0]], [7, 7, 7, 7],
            [[1, 0, 0, 0], [0, 1, 0, 0], [0, 0, 1, 0], [0, 0, 0, 1]], [0, 0, 0, 0]⟩
        = .ok a
      ∧ a.output.outF = 4
      ∧ a.output.outF ≠ 2
      ∧ a.forwardOne id (fun _ => 1) none none none none [[1, 3]]
          = some [[7, 7, 7, 7]]
      ∧ ∀ r ∈ [[(7 : ℚ), 7, 7, 7]], r.length ≠ 2 := by
  refine ⟨_, rfl, rfl, by decide, ?_, by decide⟩
  norm_num [mkPerceiverAttention, selfAttentionInit, PerceiverAttention.forwardOne,
    SelfAttention.forwardOne, layerNormRow, Linear.applyMat, Linear.apply, dot,
    splitHeads, matMulT, softmaxRow, vecScale, vecAdd, sumVecs, mergeHeads,
    List.range_succ]

lemma exceptMap_ok {ε α β : Type} (f : α → β) (x : Except ε α) (b : β)
    (h : x.map f = .ok b) : ∃ a, x = .ok a ∧ f a = b := by
  cases x with
  | error e => exact absurd h (by simp [Except.map])
  | ok a =>
      refine ⟨a, rfl, ?_⟩
      simpa [Except.map] using h

lemma forwardOne_residual_toggle (a : PerceiverAttention) (sqrtf expf : ℚ → ℚ)
    (am : Option Mat) (hm : Option (List Mat)) (inp : Option Mat) (im : Option Mat)
    (hs : Mat) :
    ({ a with use_query_residual := true } : PerceiverAttention).forwardOne
        sqrtf expf am hm inp im hs
      = (({ a with use_query_residual := false } : PerceiverAttention).forwardOne
          sqrtf expf am hm inp im hs).map fun out => List.zipWith vecAdd out hs := by
  simp only [PerceiverAttention.forwardOne]
  cases a.selfAttn.forwardOne sqrtf expf am hm inp im hs with
  | none => rfl
  | some ctx =>
      cases h2 : a.output.applyMat ctx with
      | none => simp [h2]
      | some o => simp [h2]

/-- C7 (amended): the output projection of an attention module targets
`q_dim` for cross-attention but the resolved `v_channels` for
self-attention (these coincide only when `qk_channels`/`v_channels` are
left at their defaults); and with `use_query_residual` set the forward
pass adds the un-normalized query input `hidden_states` to the projected
output. -/
theorem attention_projection_and_residual_amended
    (shape : CrossShape) (is_cross : Bool) (qk_channels v_channels : Option ℕ)
    (num_heads q_dim kv_dim : ℕ) (use_query_residual : Bool) (p : AttentionParams)
    (a : PerceiverAttention)
    (h : mkPerceiverAttention shape is_cross qk_channels v_channels num_heads q_dim
      kv_dim use_query_residual p = .ok a) :
    a.output.outF
      = (if is_cross then q_dim else v_channels.getD (qk_channels.getD q_dim))
    ∧ ∀ (sqrtf expf : ℚ → ℚ) (am : Option Mat) (hm : Option (List Mat))
        (inp : Option Mat) (im : Option Mat) (hs : Mat),
        ({ a with use_query_residual := true } : PerceiverAttention).forwardOne
            sqrtf expf am hm inp im hs
          = (({ a with use_query_residual := false } : PerceiverAttention).forwardOne
              sqrtf expf am hm inp im hs).map fun out => List.zipWith vecAdd out hs := by
  refine ⟨?_, fun sqrtf expf am hm inp im hs => forwardOne_residual_toggle a _ _ _ _ _ _ _⟩
  unfold mkPerceiverAttention at h
  obtain ⟨cfg, _hcfg, rfl⟩ := exceptMap_ok _ _ _ h
  cases is_cross with
  | true => simp
  | false => cases qk_channels <;> simp

/-- Witness for `attention_projection_and_residual_amended`: the
self-attention configuration of the counterexample (`q_dim = 2`,
`v_channels = 4`, one head). -/
theorem attention_projection_and_residual_amended_witness :
    ∃ a : PerceiverAttention,
      mkPerceiverAttention .kv false none (some 4) 1 2 2 false
          ⟨[0, 0], [0, 0], [0, 0], [0, 0],
            [[0, 0], [0, 0]], [0, 0],
            [[0, 0], [0, 0]], [0, 0],
            [[0, 0], [0, 0], [0, 0], [0, 0]], [7, 7, 7, 7],
            [[1, 0, 0, 0], [0, 1, 0, 0], [0, 0, 1, 0], [0, 0, 0, 1]], [0, 0, 0, 0]⟩
        = .ok a
      ∧ a.output.outF
          = (if false then 2
             else ((some 4 : Option ℕ).getD ((none : Option ℕ).getD 2)))
      ∧ ∀ (sqrtf expf : ℚ → ℚ) (am : Option Mat) (hm : Option (List Mat))
          (inp : Option Mat) (im : Option Mat) (hs : Mat),
          ({ a with use_query_residual := true } : PerceiverAttention).forwardOne
              sqrtf expf am hm inp im hs
            = (({ a with use_query_residual := false } : PerceiverAttention).forwardOne
                sqrtf expf am hm inp im hs).map fun out => List.zipWith vecAdd out hs :=
  ⟨_, rfl,
    (attention_projection_and_residual_amended .kv false none (some 4) 1 2 2 false
      ⟨[0, 0], [0, 0], [0, 0], [0, 0],
        [[0, 0], [0, 0]], [0, 0],
        [[0, 0], [0, 0]], [0, 0],
        [[0, 0], [0, 0], [0, 0], [0, 0]], [7, 7, 7, 7],
        [[1, 0, 0, 0], [0, 1, 0, 0], [0, 0, 1, 0], [0, 0, 0, 1]], [0, 0, 0, 0]⟩
      _ rfl).1,
    (attention_projection_and_residual_amended .kv false none (some 4) 1 2 2 false
      ⟨[0, 0], [0, 0], [0, 0], [0, 0],
        [[0, 0], [0, 0]], [0, 0],
        [[0, 0], [0, 0]], [0, 0],
        [[0, 0], [0, 0], [0, 0], [0, 0]], [7, 7, 7, 7],
        [[1, 0, 0, 0], [0, 1, 0, 0], [0, 0, 1, 0], [0, 0, 0, 1]], [0, 0, 0, 0]⟩
      _ rfl).2⟩
